import Mathlib

/-!
# Verification of the sentence-aggregation core of the `speech` MCP server

Shallow embedding of `src/tools/audio-to-text.ts`:
* the sentence-grouping loop (lines 260–288) that turns WhisperX segments
  into sentence-level timestamps,
* the parameter-bag construction forwarded to Replicate (lines 172–189,
  with the handler defaults of lines 92–109),
* the try/catch handler boundary (lines 110 and 333–344).

Times are seconds; the JS numbers are embedded as rationals (`ℚ`), so the
single subtraction `segment.end - sentenceStart` is exact, matching the
structural identity in the code.  Strings are Lean `String`s; JS
`String.prototype.trim` and the regex class `\s` are embedded with the
ECMAScript whitespace set.
-/

namespace Speech

/-- A timed transcription span as returned by the inference provider
(`output.segments` element: `{start, end, text}`). -/
structure Segment where
  start : ℚ
  «end» : ℚ
  text : String
deriving DecidableEq

instance : Inhabited Segment := ⟨⟨0, 0, ""⟩⟩

/-- A sentence-level timestamp record as pushed onto `sentenceTimestamps`:
`{sentence, start_time, end_time, duration}`. -/
structure Sentence where
  sentence : String
  start_time : ℚ
  end_time : ℚ
  duration : ℚ
deriving DecidableEq

instance : Inhabited Sentence := ⟨⟨"", 0, 0, 0⟩⟩

/-- The ECMAScript whitespace class: the characters removed by
`String.prototype.trim` and matched by the regex class `\s`
(WhiteSpace ∪ LineTerminator). -/
def isJsWhitespace (c : Char) : Bool :=
  c.toNat = 0x9 || c.toNat = 0xA || c.toNat = 0xB || c.toNat = 0xC ||
  c.toNat = 0xD || c.toNat = 0x20 || c.toNat = 0xA0 || c.toNat = 0x1680 ||
  (0x2000 ≤ c.toNat && c.toNat ≤ 0x200A) ||
  c.toNat = 0x2028 || c.toNat = 0x2029 || c.toNat = 0x202F ||
  c.toNat = 0x205F || c.toNat = 0x3000 || c.toNat = 0xFEFF

/-- Drop leading and trailing JS whitespace from a character list. -/
def jsTrimList (l : List Char) : List Char :=
  ((l.dropWhile isJsWhitespace).reverse.dropWhile isJsWhitespace).reverse

/-- Embedding of JS `s.trim()`. -/
def jsTrim (s : String) : String :=
  ⟨jsTrimList s.data⟩

/-- The sentence-terminal characters of the regex class `[.!?]`. -/
def isTerminalPunct (c : Char) : Bool :=
  c = '.' || c = '!' || c = '?'

/-- Embedding of `/[.!?][\s]*$/.test s`: the string ends with a terminal
punctuation mark followed by zero or more `\s` characters. -/
def regexTest (s : String) : Bool :=
  match s.data.reverse.dropWhile isJsWhitespace with
  | [] => false
  | c :: _ => isTerminalPunct c

/-- Line 270: `const endsWithPunctuation = /[.!?][\s]*$/.test(segment.text.trim())`. -/
def endsWithPunctuation (text : String) : Bool :=
  regexTest (jsTrim text)

/-- The body of the `for` loop of lines 265–287, as a fold with explicit
state `(currentSentence, sentenceStart)`.  The two-or-more case knows the
following segment, which the code reads as `output.segments[i + 1]` when
resetting; the singleton case is the `isLastSegment` flush, which pushes
without resetting. -/
def aggLoop : List Segment → String → ℚ → List Sentence
  | [], _, _ => []
  | [seg], acc, sentenceStart =>
      [{ sentence := jsTrim (acc ++ seg.text),
         start_time := sentenceStart,
         end_time := seg.«end»,
         duration := seg.«end» - sentenceStart }]
  | seg :: next :: rest, acc, sentenceStart =>
      let currentSentence := acc ++ seg.text
      if endsWithPunctuation seg.text then
        { sentence := jsTrim currentSentence,
          start_time := sentenceStart,
          end_time := seg.«end»,
          duration := seg.«end» - sentenceStart }
          :: aggLoop (next :: rest) "" next.start
      else
        aggLoop (next :: rest) currentSentence sentenceStart

/-- The sentence aggregator (lines 260–288): empty input produces the empty
`sentenceTimestamps` list without touching `segments[0]`; otherwise the loop
starts with an empty accumulator and `sentenceStart = segments[0].start`. -/
def aggregate : List Segment → List Sentence
  | [] => []
  | seg :: rest => aggLoop (seg :: rest) "" seg.start

/-! ## Specification-side view of the aggregator

The spec (§4.1) describes the output as a partition of the segment list into
contiguous runs, each run closed by a segment whose trimmed text passes the
punctuation test or by the end of the sequence.  The following definitions
formalise that description; the refinement theorem for C1 relates them to
`aggregate` above. -/

/-- A segment closes the current sentence when its trimmed text ends with
`.`, `!` or `?` (optionally followed by trailing whitespace). -/
def closes (seg : Segment) : Bool :=
  endsWithPunctuation seg.text

/-- One step of the spec-side partition: prepend a segment to the runs of
the rest of the list, starting a fresh run when the segment closes a
sentence (a final segment always forms the head of the last run). -/
def groupStep (seg : Segment) : List (List Segment) → List (List Segment)
  | [] => [[seg]]
  | g :: gs => if closes seg then [seg] :: g :: gs else (seg :: g) :: gs

/-- Partition the segment list into the contiguous runs described by the
spec: a run ends at each closing segment and at the final segment. -/
def groupSentences : List Segment → List (List Segment)
  | [] => []
  | seg :: rest => groupStep seg (groupSentences rest)

/-- Verbatim concatenation of the texts of a run of segments
(no separator inserted). -/
def textJoin : List Segment → String
  | [] => ""
  | seg :: rest => seg.text ++ textJoin rest

/-- Start time of the first segment of a run (0 on the empty run, which
never occurs in `groupSentences` output). -/
def headStart : List Segment → ℚ
  | [] => 0
  | seg :: _ => seg.start

/-- End time of the last segment of a run. -/
def lastEnd : List Segment → ℚ
  | [] => 0
  | [seg] => seg.«end»
  | _ :: seg :: rest => lastEnd (seg :: rest)

/-- The Sentence emitted for one run: accumulator trimmed, start of the
first contributing segment, end of the last, duration the difference. -/
def sentOf (g : List Segment) : Sentence :=
  { sentence := jsTrim (textJoin g)
    start_time := headStart g
    end_time := lastEnd g
    duration := lastEnd g - headStart g }

/-- The aggregator as the spec describes it: one Sentence per run. -/
def specAggregate (segs : List Segment) : List Sentence :=
  (groupSentences segs).map sentOf

/-! ## Structural lemmas about the grouping -/

lemma groupSentences_cons_shape (seg : Segment) (rest : List Segment) :
    ∃ t gs, groupSentences (seg :: rest) = (seg :: t) :: gs := by
  cases h : groupSentences rest with
  | nil => exact ⟨[], [], by simp [groupSentences, groupStep, h]⟩
  | cons g gs =>
    cases hc : closes seg with
    | true => exact ⟨[], g :: gs, by simp [groupSentences, groupStep, h, hc]⟩
    | false => exact ⟨g, gs, by simp [groupSentences, groupStep, h, hc]⟩

lemma groupSentences_eq_nil_iff (segs : List Segment) :
    groupSentences segs = [] ↔ segs = [] := by
  cases segs with
  | nil => simp [groupSentences]
  | cons seg rest =>
    obtain ⟨t, gs, h⟩ := groupSentences_cons_shape seg rest
    simp [h]

lemma lastEnd_cons_of_ne (s : Segment) (g : List Segment) (h : g ≠ []) :
    lastEnd (s :: g) = lastEnd g := by
  cases g with
  | nil => exact absurd rfl h
  | cons b t => rfl

lemma textJoin_singleton (seg : Segment) : textJoin [seg] = seg.text := by
  show seg.text ++ textJoin [] = seg.text
  exact String.append_empty seg.text

/-- Unrolling of the loop against the spec-side grouping: running the loop
on a non-empty tail with pending accumulator `acc` and start `st` yields the
head run's sentence (with `acc` prepended and timing `st`) followed by the
sentences of the remaining runs. -/
lemma aggLoop_eq_groups :
    ∀ (segs : List Segment) (acc : String) (st : ℚ) (g : List Segment)
      (gs : List (List Segment)), groupSentences segs = g :: gs →
      aggLoop segs acc st =
        { sentence := jsTrim (acc ++ textJoin g), start_time := st,
          end_time := lastEnd g, duration := lastEnd g - st } :: gs.map sentOf
  | [], _, _, _, _, h => by simp [groupSentences] at h
  | [seg], acc, st, g, gs, h => by
    have hg : groupSentences [seg] = [[seg]] := by
      simp [groupSentences, groupStep]
    rw [hg] at h
    injection h with h1 h2
    subst h1; subst h2
    simp [aggLoop, textJoin_singleton, lastEnd]
  | seg :: next :: rest, acc, st, g, gs, h => by
    obtain ⟨t, gs', hshape⟩ := groupSentences_cons_shape next rest
    have hne : (next :: t : List Segment) ≠ [] := by simp
    cases hc : closes seg with
    | true =>
      have hgroup : groupSentences (seg :: next :: rest) = [seg] :: (next :: t) :: gs' := by
        show groupStep seg (groupSentences (next :: rest)) = _
        rw [hshape]
        simp [groupStep, hc]
      rw [hgroup] at h
      injection h with h1 h2
      subst h1; subst h2
      have ih := aggLoop_eq_groups (next :: rest) "" next.start (next :: t) gs' hshape
      have hstep : aggLoop (seg :: next :: rest) acc st =
          { sentence := jsTrim (acc ++ seg.text), start_time := st,
            end_time := seg.«end», duration := seg.«end» - st }
            :: aggLoop (next :: rest) "" next.start := by
        simp [aggLoop, closes] at hc ⊢
        simp [hc]
      rw [hstep, ih]
      simp [sentOf, textJoin_singleton, lastEnd, headStart, String.empty_append]
    | false =>
      have hgroup : groupSentences (seg :: next :: rest) = (seg :: next :: t) :: gs' := by
        show groupStep seg (groupSentences (next :: rest)) = _
        rw [hshape]
        simp [groupStep, hc]
      rw [hgroup] at h
      injection h with h1 h2
      subst h1; subst h2
      have ih := aggLoop_eq_groups (next :: rest) (acc ++ seg.text) st (next :: t) gs' hshape
      have hstep : aggLoop (seg :: next :: rest) acc st =
          aggLoop (next :: rest) (acc ++ seg.text) st := by
        simp [aggLoop, closes] at hc ⊢
        simp [hc]
      rw [hstep, ih]
      have htj : acc ++ seg.text ++ textJoin (next :: t) =
          acc ++ textJoin (seg :: next :: t) := by
        show acc ++ seg.text ++ textJoin (next :: t) =
          acc ++ (seg.text ++ textJoin (next :: t))
        exact String.append_assoc ..
      rw [htj, lastEnd_cons_of_ne seg (next :: t) hne]

/-- The loop, started as `aggregate` starts it, computes the spec-side
partition view. -/
lemma aggregate_eq_specAggregate (segs : List Segment) :
    aggregate segs = specAggregate segs := by
  cases segs with
  | nil => rfl
  | cons seg rest =>
    obtain ⟨t, gs, hshape⟩ := groupSentences_cons_shape seg rest
    have h := aggLoop_eq_groups (seg :: rest) "" seg.start (seg :: t) gs hshape
    show aggLoop (seg :: rest) "" seg.start = specAggregate (seg :: rest)
    rw [h]
    simp [specAggregate, hshape, sentOf, headStart, String.empty_append]

/-! ## The partition is total: flattening the runs restores the input -/

lemma groupSentences_flatten (segs : List Segment) :
    (groupSentences segs).flatten = segs := by
  induction segs with
  | nil => rfl
  | cons seg rest ih =>
    show (groupStep seg (groupSentences rest)).flatten = seg :: rest
    cases h : groupSentences rest with
    | nil =>
      rw [h] at ih
      simp only [List.flatten_nil] at ih
      simp [groupStep, ← ih]
    | cons g gs =>
      rw [h] at ih
      cases hc : closes seg with
      | true => simp [groupStep, hc, List.flatten_cons] at ih ⊢; exact ih
      | false => simp [groupStep, hc, List.flatten_cons] at ih ⊢; exact ih

lemma groupSentences_mem_ne_nil (segs : List Segment) :
    ∀ g ∈ groupSentences segs, g ≠ [] := by
  induction segs with
  | nil => intro g hg; simp [groupSentences] at hg
  | cons seg rest ih =>
    intro g hg
    show g ≠ []
    have hg' : g ∈ groupStep seg (groupSentences rest) := hg
    cases h : groupSentences rest with
    | nil =>
      rw [h] at hg'
      simp [groupStep] at hg'
      simp [hg']
    | cons g0 gs =>
      rw [h] at hg'
      cases hc : closes seg with
      | true =>
        simp [groupStep, hc] at hg'
        rcases hg' with rfl | rfl | hmem
        · simp
        · exact ih _ (h ▸ List.mem_cons_self ..)
        · exact ih g (h ▸ List.mem_cons_of_mem _ hmem)
      | false =>
        simp [groupStep, hc] at hg'
        rcases hg' with rfl | hmem
        · simp
        · exact ih g (h ▸ List.mem_cons_of_mem _ hmem)

/-! ## Whitespace-erasure view of the texts (for C2) -/

/-- Erase every JS-whitespace character from a character list. -/
def stripWs (l : List Char) : List Char :=
  l.filter (fun c => !isJsWhitespace c)

lemma stripWs_append (a b : List Char) :
    stripWs (a ++ b) = stripWs a ++ stripWs b :=
  List.filter_append ..

lemma stripWs_reverse (l : List Char) :
    stripWs l.reverse = (stripWs l).reverse :=
  List.filter_reverse ..

lemma stripWs_dropWhileWs (l : List Char) :
    stripWs (l.dropWhile isJsWhitespace) = stripWs l := by
  induction l with
  | nil => rfl
  | cons c t ih =>
    cases hc : isJsWhitespace c with
    | true => simpa [List.dropWhile_cons, hc, stripWs, List.filter_cons] using ih
    | false => simp [List.dropWhile_cons, hc]

lemma stripWs_jsTrimList (l : List Char) :
    stripWs (jsTrimList l) = stripWs l := by
  unfold jsTrimList
  rw [stripWs_reverse, stripWs_dropWhileWs, stripWs_reverse,
    List.reverse_reverse, stripWs_dropWhileWs]

/-- Concatenation of the emitted sentence texts, in order. -/
def sentencesText : List Sentence → String
  | [] => ""
  | s :: rest => s.sentence ++ sentencesText rest

lemma textJoin_append (a b : List Segment) :
    textJoin (a ++ b) = textJoin a ++ textJoin b := by
  induction a with
  | nil => exact (String.empty_append (textJoin b)).symm
  | cons seg t ih =>
    show seg.text ++ textJoin (t ++ b) = seg.text ++ textJoin t ++ textJoin b
    rw [ih, String.append_assoc]

lemma sentencesText_groups (gs : List (List Segment)) :
    stripWs (sentencesText (gs.map sentOf)).data = stripWs (textJoin gs.flatten).data := by
  induction gs with
  | nil => rfl
  | cons g t ih =>
    show stripWs ((sentOf g).sentence ++ sentencesText (t.map sentOf)).data = _
    rw [String.data_append, stripWs_append]
    have h1 : stripWs (sentOf g).sentence.data = stripWs (textJoin g).data :=
      stripWs_jsTrimList (textJoin g).data
    rw [h1, List.flatten_cons, textJoin_append, String.data_append, stripWs_append, ih]

/-- Trimming only deletes whitespace at the two ends: the original character
list is whitespace, then the trimmed list, then whitespace. -/
lemma jsTrimList_decomp (l : List Char) :
    ∃ pre suf, (∀ c ∈ pre, isJsWhitespace c = true) ∧
      (∀ c ∈ suf, isJsWhitespace c = true) ∧
      l = pre ++ jsTrimList l ++ suf := by
  set d := l.dropWhile isJsWhitespace with hd
  refine ⟨l.takeWhile isJsWhitespace, (d.reverse.takeWhile isJsWhitespace).reverse,
    ?_, ?_, ?_⟩
  · intro c hc; exact List.mem_takeWhile_imp hc
  · intro c hc
    rw [List.mem_reverse] at hc
    exact List.mem_takeWhile_imp hc
  · have h1 : l.takeWhile isJsWhitespace ++ d = l :=
      List.takeWhile_append_dropWhile ..
    have h2 : d.reverse.takeWhile isJsWhitespace ++ d.reverse.dropWhile isJsWhitespace
        = d.reverse := List.takeWhile_append_dropWhile ..
    have h3 : d = (d.reverse.dropWhile isJsWhitespace).reverse ++
        (d.reverse.takeWhile isJsWhitespace).reverse := by
      have := congrArg List.reverse h2
      rw [List.reverse_append] at this
      simpa using this.symm
    calc l = l.takeWhile isJsWhitespace ++ d := h1.symm
      _ = l.takeWhile isJsWhitespace ++ ((d.reverse.dropWhile isJsWhitespace).reverse ++
            (d.reverse.takeWhile isJsWhitespace).reverse) := by rw [← h3]
      _ = l.takeWhile isJsWhitespace ++ jsTrimList l ++
            (d.reverse.takeWhile isJsWhitespace).reverse := by
          rw [List.append_assoc]; rfl

/-! ## First/last/length behaviour of the loop -/

lemma aggLoop_ne_nil (seg : Segment) (rest : List Segment) (acc : String) (st : ℚ) :
    aggLoop (seg :: rest) acc st ≠ [] := by
  obtain ⟨t, gs, hshape⟩ := groupSentences_cons_shape seg rest
  rw [aggLoop_eq_groups (seg :: rest) acc st (seg :: t) gs hshape]
  simp

lemma aggLoop_head?_start :
    ∀ (segs : List Segment) (acc : String) (st : ℚ), segs ≠ [] →
      ∃ sent, (aggLoop segs acc st).head? = some sent ∧ sent.start_time = st
  | [], _, _, h => absurd rfl h
  | [seg], acc, st, _ =>
    ⟨{ sentence := jsTrim (acc ++ seg.text), start_time := st,
       end_time := seg.«end», duration := seg.«end» - st }, rfl, rfl⟩
  | seg :: next :: rest, acc, st, _ => by
    cases hc : endsWithPunctuation seg.text with
    | true =>
      refine ⟨{ sentence := jsTrim (acc ++ seg.text), start_time := st,
                end_time := seg.«end», duration := seg.«end» - st }, ?_, rfl⟩
      show (aggLoop (seg :: next :: rest) acc st).head? = _
      simp [aggLoop, hc]
    | false =>
      obtain ⟨sent, hhead, hstart⟩ :=
        aggLoop_head?_start (next :: rest) (acc ++ seg.text) st (by simp)
      refine ⟨sent, ?_, hstart⟩
      show (aggLoop (seg :: next :: rest) acc st).head? = some sent
      simpa [aggLoop, hc] using hhead

lemma aggLoop_getLast?_end :
    ∀ (segs : List Segment) (acc : String) (st : ℚ), segs ≠ [] →
      ∃ sent lastSeg, (aggLoop segs acc st).getLast? = some sent ∧
        segs.getLast? = some lastSeg ∧ sent.end_time = lastSeg.«end»
  | [], _, _, h => absurd rfl h
  | [seg], acc, st, _ => ⟨_, seg, rfl, rfl, rfl⟩
  | seg :: next :: rest, acc, st, _ => by
    cases hc : endsWithPunctuation seg.text with
    | true =>
      obtain ⟨sent, lastSeg, hlast, hsegs, hend⟩ :=
        aggLoop_getLast?_end (next :: rest) "" next.start (by simp)
      refine ⟨sent, lastSeg, ?_, ?_, hend⟩
      · show (aggLoop (seg :: next :: rest) acc st).getLast? = some sent
        have hstep : aggLoop (seg :: next :: rest) acc st =
            { sentence := jsTrim (acc ++ seg.text), start_time := st,
              end_time := seg.«end», duration := seg.«end» - st }
              :: aggLoop (next :: rest) "" next.start := by
          simp [aggLoop, hc]
        rw [hstep]
        cases hL : aggLoop (next :: rest) "" next.start with
        | nil => exact absurd hL (aggLoop_ne_nil next rest "" next.start)
        | cons s L => rw [hL] at hlast; rw [List.getLast?_cons_cons]; exact hlast
      · rw [List.getLast?_cons_cons]; exact hsegs
    | false =>
      obtain ⟨sent, lastSeg, hlast, hsegs, hend⟩ :=
        aggLoop_getLast?_end (next :: rest) (acc ++ seg.text) st (by simp)
      refine ⟨sent, lastSeg, ?_, ?_, hend⟩
      · show (aggLoop (seg :: next :: rest) acc st).getLast? = some sent
        simpa [aggLoop, hc] using hlast
      · rw [List.getLast?_cons_cons]; exact hsegs

lemma aggLoop_length_le :
    ∀ (segs : List Segment) (acc : String) (st : ℚ),
      (aggLoop segs acc st).length ≤ segs.length
  | [], _, _ => le_refl 0
  | [_], _, _ => le_refl 1
  | seg :: next :: rest, acc, st => by
    cases hc : endsWithPunctuation seg.text with
    | true =>
      have ih := aggLoop_length_le (next :: rest) "" next.start
      have hstep : aggLoop (seg :: next :: rest) acc st =
          { sentence := jsTrim (acc ++ seg.text), start_time := st,
            end_time := seg.«end», duration := seg.«end» - st }
            :: aggLoop (next :: rest) "" next.start := by
        simp [aggLoop, hc]
      rw [hstep]
      simpa using Nat.succ_le_succ ih
    | false =>
      have ih := aggLoop_length_le (next :: rest) (acc ++ seg.text) st
      have hstep : aggLoop (seg :: next :: rest) acc st =
          aggLoop (next :: rest) (acc ++ seg.text) st := by
        simp [aggLoop, hc]
      rw [hstep]
      exact le_trans ih (by simp)

/-! ## Provenance of the emitted times (for C9) -/

lemma lastEnd_mem :
    ∀ (g : List Segment), g ≠ [] → ∃ s ∈ g, lastEnd g = s.«end»
  | [], h => absurd rfl h
  | [seg], _ => ⟨seg, by simp, rfl⟩
  | a :: b :: t, _ => by
    obtain ⟨s, hs, he⟩ := lastEnd_mem (b :: t) (by simp)
    exact ⟨s, List.mem_cons_of_mem _ hs, he⟩

lemma headStart_mem (g : List Segment) (h : g ≠ []) :
    ∃ s ∈ g, headStart g = s.start := by
  cases g with
  | nil => exact absurd rfl h
  | cons a t => exact ⟨a, by simp, rfl⟩

lemma mem_aggregate_eq_sentOf {segs : List Segment} {sent : Sentence}
    (h : sent ∈ aggregate segs) :
    ∃ g, g ∈ groupSentences segs ∧ g ≠ [] ∧ (∀ x ∈ g, x ∈ segs) ∧ sent = sentOf g := by
  rw [aggregate_eq_specAggregate, specAggregate, List.mem_map] at h
  obtain ⟨g, hg, hs⟩ := h
  refine ⟨g, hg, groupSentences_mem_ne_nil segs g hg, ?_, hs.symm⟩
  intro x hx
  rw [← groupSentences_flatten segs, List.mem_flatten]
  exact ⟨g, hg, hx⟩

/-! ## Parameter shaping (lines 92–109 and 172–189)

The handler destructures its argument object with JS defaults
(`language = "en"`, `batch_size = 64`, `temperature = 0`, `vad_onset = 0.5`,
`vad_offset = 0.363`, `align_output = true`, `diarization = true`,
`debug = false`) and then builds the sparse `input` object, guarding five
keys by JS truthiness (`if (x)`) and the rest by `x !== undefined`. -/

/-- The caller-supplied optional parameters of the `audio-to-text` tool;
`none` is JS `undefined` (parameter not given).  `audio_file` is required
and `filename` is never forwarded, so neither is modelled here. -/
structure ToolArgs where
  language : Option String
  language_detection_min_prob : Option ℚ
  language_detection_max_tries : Option Int
  initial_prompt : Option String
  batch_size : Option Int
  temperature : Option ℚ
  vad_onset : Option ℚ
  vad_offset : Option ℚ
  align_output : Option Bool
  diarization : Option Bool
  huggingface_access_token : Option String
  min_speakers : Option Int
  max_speakers : Option Int
  debug : Option Bool
deriving DecidableEq

/-- The sparse `input` object sent to `replicate.run`; `none` means the key
is absent from the object. -/
structure InputBag where
  audio_file : String
  language : Option String
  initial_prompt : Option String
  language_detection_min_prob : Option ℚ
  language_detection_max_tries : Option Int
  temperature : Option ℚ
  batch_size : Option Int
  vad_onset : Option ℚ
  vad_offset : Option ℚ
  align_output : Option Bool
  diarization : Option Bool
  debug : Option Bool
  huggingface_access_token : Option String
  min_speakers : Option Int
  max_speakers : Option Int
deriving DecidableEq

/-- JS truthiness guard `if (x) input.k = x` for a string-valued parameter:
`undefined` and `""` are falsy. -/
def keepTruthyStr : Option String → Option String
  | none => none
  | some s => if s = "" then none else some s

/-- JS truthiness guard for a number-valued parameter: `undefined` and `0`
are falsy. -/
def keepTruthyNum : Option ℚ → Option ℚ
  | none => none
  | some q => if q = 0 then none else some q

/-- JS truthiness guard for an integer-valued parameter. -/
def keepTruthyInt : Option Int → Option Int
  | none => none
  | some n => if n = 0 then none else some n

/-- Lines 172–189: the `input` object built from the destructured handler
parameters (defaults of lines 92–109 applied) and the public URL of the
uploaded audio. -/
def buildInput (args : ToolArgs) (publicUrl : String) : InputBag :=
  let language := args.language.getD "en"
  let batch_size := args.batch_size.getD 64
  let temperature := args.temperature.getD 0
  let vad_onset := args.vad_onset.getD 0.5
  let vad_offset := args.vad_offset.getD 0.363
  let align_output := args.align_output.getD true
  let diarization := args.diarization.getD true
  let debug := args.debug.getD false
  { audio_file := publicUrl
    language := if language = "" then none else some language
    initial_prompt := keepTruthyStr args.initial_prompt
    language_detection_min_prob := keepTruthyNum args.language_detection_min_prob
    language_detection_max_tries := keepTruthyInt args.language_detection_max_tries
    temperature := some temperature
    batch_size := some batch_size
    vad_onset := some vad_onset
    vad_offset := some vad_offset
    align_output := some align_output
    diarization := some diarization
    debug := some debug
    huggingface_access_token := keepTruthyStr args.huggingface_access_token
    min_speakers := args.min_speakers
    max_speakers := args.max_speakers }

/-! ## The handler boundary (lines 110 and 333–344)

The body performs a fixed sequence of fallible steps; each external outcome
is supplied abstractly through `HandlerEnv`.  Supabase calls report errors
through a returned `error` field which the code turns into a thrown
`Error`; `readFileSync`, `mkdirSync`, `writeFileSync` and `replicate.run`
throw directly.  The surrounding `try`/`catch` converts any of these into a
textual error response. -/

/-- The shape of the Replicate response consumed by the handler. -/
structure TranscriptOutput where
  detected_language : Option String
  segments : Option (List Segment)

/-- The outcomes of one invocation's external interactions, in program
order.  `Except.error m` is a failure carrying its message; for the two
Supabase calls whose errors the code inspects, `Option String` is the
returned `error?.message`. -/
structure HandlerEnv where
  listBuckets : Except String (Option (List String))
  createBucket : Option String
  readFile : Except String Unit
  upload : Option String
  replicateRun : Except String (Option TranscriptOutput)
  mkdir : Except String Unit
  writeTranscript : Except String Unit
  writeText : Except String Unit
  writeSentences : Except String Unit

/-- The `try` block of the handler (lines 110–332): stops at the first
failure with the message the code throws, otherwise returns the success
summary marker together with the computed sentence list. -/
def handlerBody (env : HandlerEnv) : Except String (String × List Sentence) := do
  let buckets ← match env.listBuckets with
    | .error m => .error ("Failed to list buckets: " ++ m)
    | .ok v => .ok v
  let audioBucketExists := (buckets.getD []).contains "audio"
  if !audioBucketExists then
    match env.createBucket with
    | some m => throw ("Failed to create audio bucket: " ++ m)
    | none => pure ()
  let _ ← env.readFile
  match env.upload with
  | some m => throw ("Failed to upload file to Supabase: " ++ m)
  | none => pure ()
  let output ← match ← env.replicateRun with
    | none => throw "No output received from Replicate API"
    | some o => pure o
  let _ ← env.mkdir
  let _ ← env.writeTranscript
  let _ ← env.writeText
  let sentenceTimestamps := aggregate (output.segments.getD [])
  let _ ← env.writeSentences
  pure ("Audio transcription completed successfully!", sentenceTimestamps)

/-- What the host receives from one tool invocation: either a content
response or an uncaught fault. -/
inductive HostOutcome where
  | response (text : String)
  | fault (message : String)
deriving DecidableEq

/-- The whole handler as the host sees it: the `catch` block (lines
333–344) converts any failure of the body into a textual error response. -/
def invoke (env : HandlerEnv) : HostOutcome :=
  match handlerBody env with
  | .ok (msg, _) => .response msg
  | .error e => .response ("Error transcribing audio: " ++ e)

/-! ## Sanity instances: the worked examples of spec §8 -/

lemma spec_example_one :
    aggregate [⟨0, 1, "Hello."⟩] = [⟨"Hello.", 0, 1, 1⟩] := by
  simp +decide [aggregate, aggLoop]

lemma spec_example_two :
    aggregate [⟨0, 1, "Hello"⟩, ⟨1, 2, " world."⟩] = [⟨"Hello world.", 0, 2, 2⟩] := by
  simp +decide [aggregate, aggLoop]

lemma spec_example_three :
    aggregate [⟨0, 1, "Hi"⟩, ⟨1, 2, "there"⟩] = [⟨"Hithere", 0, 2, 2⟩] := by
  simp +decide [aggregate, aggLoop]

lemma spec_example_five :
    aggregate [⟨0, 1, "One."⟩, ⟨1, 2, "two"⟩, ⟨2, 3, "three"⟩] =
      [⟨"One.", 0, 1, 1⟩, ⟨"twothree", 1, 3, 2⟩] := by
  simp +decide [aggregate, aggLoop]
  norm_num

/-! ## Claim theorems -/

/-- C1: for every ordered input sequence of Segments the aggregator closes
a sentence exactly after those segments whose trimmed text ends with `.`,
`!` or `?` (optionally followed by trailing whitespace) and after the final
segment; each emitted Sentence is the trimmed accumulator with the current
sentence start, that segment's end, and duration their difference, and the
next sentence starts at the following segment's start.  Stated as
refinement: the loop equals the spec-side partition view `specAggregate`,
whose runs end exactly at closing segments and at the end of input. -/
theorem C1_aggregate_refines_partition_spec (segs : List Segment) :
    aggregate segs = specAggregate segs :=
  aggregate_eq_specAggregate segs

theorem C1_witness :
    aggregate [⟨0, 1, "Hello"⟩, ⟨1, 2, " world."⟩] =
      specAggregate [⟨0, 1, "Hello"⟩, ⟨1, 2, " world."⟩] :=
  C1_aggregate_refines_partition_spec _

/-- C2: concatenating all emitted Sentence texts reproduces the
concatenation of all Segment texts up to whitespace (equal after erasing
every whitespace character), and the per-sentence final trim removes only
leading and trailing whitespace, never interior text (the original text is
whitespace + trimmed text + whitespace). -/
theorem C2_text_preserved_up_to_whitespace :
    (∀ segs : List Segment,
      stripWs (sentencesText (aggregate segs)).data = stripWs (textJoin segs).data) ∧
    (∀ s : String, ∃ pre suf,
      (∀ c ∈ pre, isJsWhitespace c = true) ∧
      (∀ c ∈ suf, isJsWhitespace c = true) ∧
      s.data = pre ++ (jsTrim s).data ++ suf) := by
  constructor
  · intro segs
    rw [aggregate_eq_specAggregate]
    have h := sentencesText_groups (groupSentences segs)
    rwa [groupSentences_flatten] at h
  · intro s
    exact jsTrimList_decomp s.data

theorem C2_witness :
    stripWs (sentencesText (aggregate [⟨0, 1, " Hello "⟩, ⟨1, 2, "world."⟩])).data =
      stripWs (textJoin [⟨0, 1, " Hello "⟩, ⟨1, 2, "world."⟩]).data :=
  C2_text_preserved_up_to_whitespace.1 _

/-- C3: for every non-empty input the output is non-empty and the last
emitted Sentence's `end_time` is the last Segment's `end` (flush-on-end). -/
theorem C3_flush_on_end (segs : List Segment) (h : segs ≠ []) :
    aggregate segs ≠ [] ∧
    ∃ sent lastSeg, (aggregate segs).getLast? = some sent ∧
      segs.getLast? = some lastSeg ∧ sent.end_time = lastSeg.«end» := by
  cases segs with
  | nil => exact absurd rfl h
  | cons seg rest =>
    exact ⟨aggLoop_ne_nil seg rest "" seg.start,
      aggLoop_getLast?_end (seg :: rest) "" seg.start (by simp)⟩

theorem C3_witness :
    ([⟨0, 1, "Hi"⟩, ⟨1, 2, "there"⟩] : List Segment) ≠ [] ∧
    (aggregate [⟨0, 1, "Hi"⟩, ⟨1, 2, "there"⟩] ≠ [] ∧
      ∃ sent lastSeg,
        (aggregate [⟨0, 1, "Hi"⟩, ⟨1, 2, "there"⟩]).getLast? = some sent ∧
        ([⟨0, 1, "Hi"⟩, ⟨1, 2, "there"⟩] : List Segment).getLast? = some lastSeg ∧
        sent.end_time = lastSeg.«end») :=
  ⟨by simp, C3_flush_on_end _ (by simp)⟩

/-- C5: the number of emitted Sentences never exceeds the number of
Segments, and is at least 1 when at least one Segment exists. -/
theorem C5_sentence_count_bounds (segs : List Segment) :
    (aggregate segs).length ≤ segs.length ∧
    (segs ≠ [] → 1 ≤ (aggregate segs).length) := by
  cases segs with
  | nil => exact ⟨le_refl _, fun h => absurd rfl h⟩
  | cons seg rest =>
    refine ⟨aggLoop_length_le (seg :: rest) "" seg.start, fun _ => ?_⟩
    exact List.length_pos.mpr (aggLoop_ne_nil seg rest "" seg.start)

theorem C5_witness :
    ([⟨0, 1, "a"⟩] : List Segment) ≠ [] ∧
    (aggregate [⟨0, 1, "a"⟩]).length ≤ ([⟨0, 1, "a"⟩] : List Segment).length ∧
    1 ≤ (aggregate [⟨0, 1, "a"⟩]).length :=
  ⟨by simp, (C5_sentence_count_bounds _).1, (C5_sentence_count_bounds _).2 (by simp)⟩

/-- C6: the output is empty exactly when the input is empty; on the empty
input the definition returns `[]` without consulting any segment. -/
theorem C6_output_empty_iff_input_empty (segs : List Segment) :
    aggregate segs = [] ↔ segs = [] := by
  cases segs with
  | nil => simp [aggregate]
  | cons seg rest =>
    exact iff_of_false (aggLoop_ne_nil seg rest "" seg.start) (by simp)

theorem C6_witness :
    (aggregate [] = [] ↔ ([] : List Segment) = []) ∧
    (aggregate [⟨0, 1, "a"⟩] = [] ↔ ([⟨0, 1, "a"⟩] : List Segment) = []) :=
  ⟨C6_output_empty_iff_input_empty [], C6_output_empty_iff_input_empty _⟩

/-- C7: for every non-empty input the first emitted Sentence's `start_time`
is the first Segment's `start`. -/
theorem C7_first_sentence_start (seg : Segment) (rest : List Segment) :
    ∃ sent, (aggregate (seg :: rest)).head? = some sent ∧
      sent.start_time = seg.start :=
  aggLoop_head?_start (seg :: rest) "" seg.start (by simp)

theorem C7_witness :
    ∃ sent, (aggregate [⟨3, 4, "x"⟩, ⟨4, 5, "y"⟩]).head? = some sent ∧
      sent.start_time = (3 : ℚ) :=
  C7_first_sentence_start ⟨3, 4, "x"⟩ [⟨4, 5, "y"⟩]

/-- C4 fails as stated: the key `language_detection_min_prob` is guarded by
JS truthiness (`if (x)`), so the caller-supplied defined value `0` is also
omitted from the forwarded bag — the bag does not omit *only* keys whose
value is undefined. -/
theorem C4_counterexample :
    ¬ ∀ (args : ToolArgs) (url : String),
        ((buildInput args url).language_detection_min_prob = none ↔
          args.language_detection_min_prob = none) := by
  intro h
  have hb : (buildInput
      ⟨none, some 0, none, none, none, none, none, none, none, none, none,
        none, none, none⟩ "u").language_detection_min_prob = none := by
    simp [buildInput, keepTruthyNum]
  have h0 := (h ⟨none, some 0, none, none, none, none, none, none, none,
    none, none, none, none, none⟩ "u").mp hb
  simp at h0

/-- C4 amended: every optional key whose value is undefined is omitted, and
the `!== undefined`-guarded keys are omitted for exactly those; but the five
truthiness-guarded keys (`language`, `initial_prompt`,
`language_detection_min_prob`, `language_detection_max_tries`,
`huggingface_access_token`) are additionally omitted for defined falsy
values (`0`, `""`), while the keys with handler-side destructuring defaults
are always forwarded with the defaulted value. -/
theorem C4_sparse_bag_amended (args : ToolArgs) (url : String) :
    (args.initial_prompt = none → (buildInput args url).initial_prompt = none) ∧
    (args.language_detection_min_prob = none →
      (buildInput args url).language_detection_min_prob = none) ∧
    (args.language_detection_max_tries = none →
      (buildInput args url).language_detection_max_tries = none) ∧
    (args.huggingface_access_token = none →
      (buildInput args url).huggingface_access_token = none) ∧
    (buildInput args url).min_speakers = args.min_speakers ∧
    (buildInput args url).max_speakers = args.max_speakers ∧
    (buildInput args url).temperature = some (args.temperature.getD 0) ∧
    (buildInput args url).batch_size = some (args.batch_size.getD 64) ∧
    (buildInput args url).vad_onset = some (args.vad_onset.getD 0.5) ∧
    (buildInput args url).vad_offset = some (args.vad_offset.getD 0.363) ∧
    (buildInput args url).align_output = some (args.align_output.getD true) ∧
    (buildInput args url).diarization = some (args.diarization.getD true) ∧
    (buildInput args url).debug = some (args.debug.getD false) ∧
    ((buildInput args url).language = none ↔ args.language.getD "en" = "") ∧
    (∀ s, args.initial_prompt = some s →
      ((buildInput args url).initial_prompt = none ↔ s = "")) ∧
    (∀ q, args.language_detection_min_prob = some q →
      ((buildInput args url).language_detection_min_prob = none ↔ q = 0)) ∧
    (∀ n, args.language_detection_max_tries = some n →
      ((buildInput args url).language_detection_max_tries = none ↔ n = 0)) ∧
    (∀ s, args.huggingface_access_token = some s →
      ((buildInput args url).huggingface_access_token = none ↔ s = "")) ∧
    (buildInput args url).audio_file = url := by
  refine ⟨?_, ?_, ?_, ?_, rfl, rfl, rfl, rfl, rfl, rfl, rfl, rfl, rfl,
    ?_, ?_, ?_, ?_, ?_, rfl⟩
  · intro h; simp [buildInput, keepTruthyStr, h]
  · intro h; simp [buildInput, keepTruthyNum, h]
  · intro h; simp [buildInput, keepTruthyInt, h]
  · intro h; simp [buildInput, keepTruthyStr, h]
  · show (if args.language.getD "en" = "" then none
        else some (args.language.getD "en")) = none ↔ args.language.getD "en" = ""
    by_cases h : args.language.getD "en" = "" <;> simp [h]
  · intro s h
    show keepTruthyStr args.initial_prompt = none ↔ s = ""
    rw [h]
    by_cases hs : s = "" <;> simp [keepTruthyStr, hs]
  · intro q h
    show keepTruthyNum args.language_detection_min_prob = none ↔ q = 0
    rw [h]
    by_cases hq : q = 0 <;> simp [keepTruthyNum, hq]
  · intro n h
    show keepTruthyInt args.language_detection_max_tries = none ↔ n = 0
    rw [h]
    by_cases hn : n = 0 <;> simp [keepTruthyInt, hn]
  · intro s h
    show keepTruthyStr args.huggingface_access_token = none ↔ s = ""
    rw [h]
    by_cases hs : s = "" <;> simp [keepTruthyStr, hs]

theorem C4_witness :
    (buildInput ⟨none, none, none, none, none, none, none, none, none, none,
        none, none, none, none⟩ "u").initial_prompt = none ∧
    ((buildInput ⟨none, some 0, none, none, none, none, none, none, none,
        none, none, none, none, none⟩ "u").language_detection_min_prob = none ↔
      (0 : ℚ) = 0) := by
  constructor
  · exact (C4_sparse_bag_amended
      ⟨none, none, none, none, none, none, none, none, none, none,
        none, none, none, none⟩ "u").1 rfl
  · obtain ⟨-, -, -, -, -, -, -, -, -, -, -, -, -, -, -, hq, -, -, -⟩ :=
      C4_sparse_bag_amended
        ⟨none, some 0, none, none, none, none, none, none, none, none,
          none, none, none, none⟩ "u"
    exact hq 0 rfl

/-- C8: whatever the outcome of the external steps, the handler returns a
textual response — a failing body is converted by the `catch` into the
`Error transcribing audio: …` message and is never an uncaught fault. -/
theorem C8_handler_never_propagates (env : HandlerEnv) :
    (∃ t, invoke env = HostOutcome.response t) ∧
    (∀ e, handlerBody env = Except.error e →
      invoke env = HostOutcome.response ("Error transcribing audio: " ++ e)) := by
  constructor
  · cases h : handlerBody env with
    | ok p =>
      obtain ⟨msg, s⟩ := p
      exact ⟨msg, by unfold invoke; rw [h]⟩
    | error e =>
      exact ⟨"Error transcribing audio: " ++ e, by unfold invoke; rw [h]⟩
  · intro e he
    unfold invoke
    rw [he]

theorem C8_witness :
    handlerBody ⟨Except.error "boom", none, Except.ok (), none, Except.ok none,
        Except.ok (), Except.ok (), Except.ok (), Except.ok ()⟩ =
      Except.error "Failed to list buckets: boom" ∧
    invoke ⟨Except.error "boom", none, Except.ok (), none, Except.ok none,
        Except.ok (), Except.ok (), Except.ok (), Except.ok ()⟩ =
      HostOutcome.response
        ("Error transcribing audio: " ++ "Failed to list buckets: boom") :=
  ⟨rfl, (C8_handler_never_propagates _).2 _ rfl⟩

/-- C9: every emitted Sentence's duration is exactly `end_time − start_time`
with both times carried verbatim from input segments, and zero or negative
durations on (malformed) input are emitted uncorrected. -/
theorem C9_duration_is_exact_subtraction :
    (∀ (segs : List Segment) (sent : Sentence), sent ∈ aggregate segs →
      sent.duration = sent.end_time - sent.start_time ∧
      (∃ s ∈ segs, sent.end_time = s.«end») ∧
      (∃ s ∈ segs, sent.start_time = s.start)) ∧
    (∃ (segs : List Segment) (sent : Sentence),
      sent ∈ aggregate segs ∧ sent.duration < 0) ∧
    (∃ (segs : List Segment) (sent : Sentence),
      sent ∈ aggregate segs ∧ sent.duration = 0) := by
  refine ⟨?_, ?_, ?_⟩
  · intro segs sent hmem
    obtain ⟨g, hg, hne, hsub, rfl⟩ := mem_aggregate_eq_sentOf hmem
    refine ⟨rfl, ?_, ?_⟩
    · obtain ⟨s, hs, he⟩ := lastEnd_mem g hne
      exact ⟨s, hsub s hs, he⟩
    · obtain ⟨s, hs, hst⟩ := headStart_mem g hne
      exact ⟨s, hsub s hs, hst⟩
  · refine ⟨[⟨5, 1, "Hi."⟩], ⟨jsTrim ("" ++ "Hi."), 5, 1, 1 - 5⟩, ?_, by norm_num⟩
    have hagg : aggregate [⟨5, 1, "Hi."⟩] = [⟨jsTrim ("" ++ "Hi."), 5, 1, 1 - 5⟩] := rfl
    rw [hagg]
    exact List.mem_singleton.mpr rfl
  · refine ⟨[⟨0, 0, "a"⟩], ⟨jsTrim ("" ++ "a"), 0, 0, 0 - 0⟩, ?_, by norm_num⟩
    have hagg : aggregate [⟨0, 0, "a"⟩] = [⟨jsTrim ("" ++ "a"), 0, 0, 0 - 0⟩] := rfl
    rw [hagg]
    exact List.mem_singleton.mpr rfl

theorem C9_witness :
    (⟨jsTrim ("" ++ "Hi."), 0, 1, 1 - 0⟩ : Sentence) ∈ aggregate [⟨0, 1, "Hi."⟩] ∧
    ((⟨jsTrim ("" ++ "Hi."), 0, 1, 1 - 0⟩ : Sentence).duration =
        (⟨jsTrim ("" ++ "Hi."), 0, 1, 1 - 0⟩ : Sentence).end_time -
        (⟨jsTrim ("" ++ "Hi."), 0, 1, 1 - 0⟩ : Sentence).start_time ∧
      (∃ s ∈ [(⟨0, 1, "Hi."⟩ : Segment)],
        (⟨jsTrim ("" ++ "Hi."), 0, 1, 1 - 0⟩ : Sentence).end_time = s.«end») ∧
      (∃ s ∈ [(⟨0, 1, "Hi."⟩ : Segment)],
        (⟨jsTrim ("" ++ "Hi."), 0, 1, 1 - 0⟩ : Sentence).start_time = s.start)) := by
  have hagg : aggregate [⟨0, 1, "Hi."⟩] = [⟨jsTrim ("" ++ "Hi."), 0, 1, 1 - 0⟩] := rfl
  have hmem : (⟨jsTrim ("" ++ "Hi."), 0, 1, 1 - 0⟩ : Sentence) ∈
      aggregate [⟨0, 1, "Hi."⟩] := by
    rw [hagg]; exact List.mem_singleton.mpr rfl
  exact ⟨hmem, C9_duration_is_exact_subtraction.1 [⟨0, 1, "Hi."⟩] _ hmem⟩

/-- C10: a non-empty input can yield a Sentence with empty text: after a
closing segment, a trailing whitespace-only segment never passes the
punctuation test, and the end-of-sequence flush emits a final Sentence whose
trimmed accumulator is `""` with the trailing segment's times. -/
theorem C10_empty_sentence_emitted :
    aggregate [⟨0, 1, "Hi."⟩, ⟨1, 2, " "⟩] =
      [⟨"Hi.", 0, 1, 1⟩, ⟨"", 1, 2, 1⟩] ∧
    (⟨"", 1, 2, 1⟩ : Sentence).sentence = "" := by
  refine ⟨?_, rfl⟩
  simp +decide [aggregate, aggLoop]
  norm_num

end Speech
